import Mathlib

set_option maxHeartbeats 1000000

/-!
Verification development for the meta-tags-preview repository.

The embedding covers:
* `src/lib/path-tree.ts`: the path-tree build algorithm (`buildPathTree`,
  `markIncludedChildren`, `countAllUrls`, `countLimitedUrls`,
  `getAllUrlsFromNode`, `hasAnyUrls`);
* the sitemap resolution route (`parseSitemapXml`, `fetchNestedSitemaps`,
  the POST handler's sitemap-index classification and fallback);
* the batch metadata-fetch route (`fetchPageContent`, `processUrl`, the POST
  handler's truncation, batching and counting);
* the selection toggle `handleToggleSelect` from `src/app/page.tsx`.

JavaScript `Map<string, PathTreeNode>` values are modelled as association
lists in insertion order (JS `Map` iteration order).  The platform `URL`
constructor is modelled as an abstract parameter
`parse : String → Option (List String)` returning the non-empty path
segments of a URL (`new URL(loc).pathname.split('/').filter(Boolean)`) when
`loc` parses as a valid absolute URL, and `none` when the constructor
throws.  Network fetches are modelled as abstract functions from URL
strings to outcomes.
-/

/-- `SitemapUrl` from `src/types/index.ts`: `loc` is typed as a present
string; the optional fields are carried along unchanged. -/
structure SitemapUrl where
  loc : String
  lastmod : Option String := none
  changefreq : Option String := none
  priority : Option String := none
deriving DecidableEq, Repr

/-- `TreeStats` from `src/lib/path-tree.ts`. -/
structure TreeStats where
  totalOriginalUrls : Nat
  totalLimitedUrls : Nat
deriving DecidableEq, Repr

/-- `PathTreeNode` from `src/lib/path-tree.ts`.  `children` is the JS
`Map<string, PathTreeNode>` in insertion order. -/
inductive PathTreeNode : Type where
  | mk
    (name : String)
    (fullPath : String)
    (urls : List SitemapUrl)
    (isIncluded : Bool)
    (totalUrlCount : Nat)
    (limitedUrlCount : Nat)
    (children : List (String × PathTreeNode))
    (isExpanded : Bool)
    (isSelected : Bool)

def PathTreeNode.name : PathTreeNode → String
  | .mk n _ _ _ _ _ _ _ _ => n

def PathTreeNode.fullPath : PathTreeNode → String
  | .mk _ f _ _ _ _ _ _ _ => f

def PathTreeNode.urls : PathTreeNode → List SitemapUrl
  | .mk _ _ u _ _ _ _ _ _ => u

def PathTreeNode.isIncluded : PathTreeNode → Bool
  | .mk _ _ _ i _ _ _ _ _ => i

def PathTreeNode.totalUrlCount : PathTreeNode → Nat
  | .mk _ _ _ _ t _ _ _ _ => t

def PathTreeNode.limitedUrlCount : PathTreeNode → Nat
  | .mk _ _ _ _ _ l _ _ _ => l

def PathTreeNode.children : PathTreeNode → List (String × PathTreeNode)
  | .mk _ _ _ _ _ _ c _ _ => c

/-- The assignment `child.isIncluded = childIncluded` (path-tree.ts line
140) modelled functionally. -/
def PathTreeNode.setIncluded : PathTreeNode → Bool → PathTreeNode
  | .mk n f u _ t l c e s, b => .mk n f u b t l c e s

mutual

/-- `hasAnyUrls` (path-tree.ts lines 158-164): the node or any descendant
carries a URL. -/
def hasAnyUrls : PathTreeNode → Bool
  | .mk _ _ urls _ _ _ children _ _ => 0 < urls.length || hasAnyUrlsList children

def hasAnyUrlsList : List (String × PathTreeNode) → Bool
  | [] => false
  | (_, c) :: rest => hasAnyUrls c || hasAnyUrlsList rest

end

/-- `countAllUrls` (path-tree.ts lines 169-175): own URLs plus the
children's already-computed `totalUrlCount` fields. -/
def countAllUrls (node : PathTreeNode) : Nat :=
  node.urls.length + (node.children.map (fun c => c.2.totalUrlCount)).sum

/-- `countLimitedUrls` (path-tree.ts lines 180-187): zero when the node is
excluded, else own URLs plus the children's `limitedUrlCount` fields. -/
def countLimitedUrls (node : PathTreeNode) : Nat :=
  if !node.isIncluded then 0
  else node.urls.length + (node.children.map (fun c => c.2.limitedUrlCount)).sum

/-- A freshly created tree node (path-tree.ts lines 77-87). -/
def newNode (segment fullPath : String) : PathTreeNode :=
  .mk segment fullPath [] true 0 0 [] false false

mutual

/-- The pass-1 body of `buildPathTree` (path-tree.ts lines 58-100) for one
URL: walk/create one node per path segment and attach the URL to the
terminal node; with no segments the URL attaches to the current (root)
node.  `fullPath` accumulates as `parent.fullPath ++ "/" ++ segment`, which
agrees with `'/' + pathParts.slice(0, i + 1).join('/')`. -/
def insertUrl (u : SitemapUrl) : List String → PathTreeNode → PathTreeNode
  | [], .mk n f urls i t l cs e s => .mk n f (urls ++ [u]) i t l cs e s
  | seg :: rest, .mk n f urls i t l cs e s =>
    .mk n f urls i t l (insertChild u seg (f ++ "/" ++ seg) rest cs) e s
termination_by segs _ => (segs.length, 0)

/-- Walk the children map for one segment: descend into the existing child
with this key, or append a fresh child at the end (JS `Map.set` appends new
keys in insertion order). -/
def insertChild (u : SitemapUrl) (seg fullPath : String) (rest : List String) :
    List (String × PathTreeNode) → List (String × PathTreeNode)
  | [] => [(seg, insertUrl u rest (newNode seg fullPath))]
  | (k, c) :: cs =>
    if k = seg then (k, insertUrl u rest c) :: cs
    else (k, c) :: insertChild u seg fullPath rest cs
termination_by cs => (rest.length, cs.length + 1)

end

/-- The root node created at the top of `buildPathTree` (lines 45-55). -/
def rootInit : PathTreeNode :=
  .mk "root" "" [] true 0 0 [] true false

/-- Pass 1 of `buildPathTree` over the whole URL list: URLs whose `loc`
fails to parse are skipped (the `catch` on line 97). -/
def insertAll (parse : String → Option (List String)) (urls : List SitemapUrl) : PathTreeNode :=
  urls.foldl
    (fun root u =>
      match parse u.loc with
      | some segs => insertUrl u segs root
      | none => root)
    rootInit

mutual

/-- Number of nodes in the tree; used as the termination measure of the
marking pass (the `isIncluded` assignment leaves it unchanged). -/
def nodeSize : PathTreeNode → Nat
  | .mk _ _ _ _ _ _ cs _ _ => 1 + nodeSizeList cs

def nodeSizeList : List (String × PathTreeNode) → Nat
  | [] => 0
  | (_, c) :: rest => 1 + nodeSize c + nodeSizeList rest

end

/-- The `includedChildren` set of `markIncludedChildren` (path-tree.ts
lines 121-135): keys of children that carry URLs, all of them for the root
(`fullPath = ""`), the first `maxC` of them otherwise. -/
def includedKeys (maxC : Nat) (f : String) (cs : List (String × PathTreeNode)) : List String :=
  let childrenWithUrls := (cs.filter (fun c => hasAnyUrls c.2)).map Prod.fst
  if f = "" then childrenWithUrls else childrenWithUrls.take maxC

mutual

/-- `markIncludedChildren` (path-tree.ts lines 114-153).  The imperative
mutation of `node` and `stats` is modelled by returning the updated node
together with this subtree's contribution to the stats. -/
def markIncludedChildren (maxC : Nat) (node : PathTreeNode) (parentIncluded : Bool) :
    PathTreeNode × TreeStats :=
  match node with
  | .mk n f urls isInc t l cs e s =>
    let pr := markChildrenList maxC parentIncluded (includedKeys maxC f cs) cs
    let marked := PathTreeNode.mk n f urls isInc t l pr.1 e s
    let total := countAllUrls marked
    let limited := countLimitedUrls marked
    (PathTreeNode.mk n f urls isInc total limited pr.1 e s,
     ⟨pr.2.totalOriginalUrls + urls.length,
      pr.2.totalLimitedUrls + (if isInc then urls.length else 0)⟩)
termination_by nodeSize node
decreasing_by
  simp [nodeSize]
  try omega

/-- The `for (const [key, child] of node.children.entries())` loop
(path-tree.ts lines 138-142): set each child's `isIncluded` (the
assignment `child.isIncluded = childIncluded` is inlined into the child's
constructor), recurse, and combine the stats contributions. -/
def markChildrenList (maxC : Nat) (parentIncluded : Bool) (includedChildren : List String) :
    List (String × PathTreeNode) → List (String × PathTreeNode) × TreeStats
  | [] => ([], ⟨0, 0⟩)
  | (k, .mk cn cf cu _ ct cl cc ce csel) :: rest =>
    let childIncluded := parentIncluded && includedChildren.contains k
    let pr1 := markIncludedChildren maxC (.mk cn cf cu childIncluded ct cl cc ce csel) childIncluded
    let pr2 := markChildrenList maxC parentIncluded includedChildren rest
    ((k, pr1.1) :: pr2.1,
     ⟨pr1.2.totalOriginalUrls + pr2.2.totalOriginalUrls,
      pr1.2.totalLimitedUrls + pr2.2.totalLimitedUrls⟩)
termination_by cs => nodeSizeList cs
decreasing_by
  all_goals simp [nodeSize, nodeSizeList]
  all_goals try omega

end

/-- The result record `{ tree, stats }` of `buildPathTree`. -/
structure BuildResult where
  tree : PathTreeNode
  stats : TreeStats

/-- `buildPathTree` (path-tree.ts lines 41-107): pass 1 inserts every
parsable URL, pass 2 marks inclusion and computes counts. -/
def buildPathTree (parse : String → Option (List String)) (urls : List SitemapUrl)
    (maxChildrenPerParent : Nat) : BuildResult :=
  let root := insertAll parse urls
  let pr := markIncludedChildren maxChildrenPerParent root true
  ⟨pr.1, pr.2⟩

mutual

/-- `getAllUrlsFromNode` (path-tree.ts lines 192-200): collect URLs
respecting `isIncluded`, short-circuiting on an excluded node. -/
def getAllUrlsFromNode : PathTreeNode → List SitemapUrl
  | .mk _ _ urls isInc _ _ cs _ _ =>
    if !isInc then [] else urls ++ getAllUrlsFromChildren cs

def getAllUrlsFromChildren : List (String × PathTreeNode) → List SitemapUrl
  | [] => []
  | (_, c) :: rest => getAllUrlsFromNode c ++ getAllUrlsFromChildren rest

end

mutual

/-- Observation function: the `isIncluded` flag of the node reached by
following the given child keys from `node` (`false` if no such node). -/
def includedAt : PathTreeNode → List String → Bool
  | .mk _ _ _ isInc _ _ _ _ _, [] => isInc
  | .mk _ _ _ _ _ _ cs _ _, key :: rest => includedAtList cs key rest

def includedAtList : List (String × PathTreeNode) → String → List String → Bool
  | [], _, _ => false
  | (k, c) :: cs, key, rest =>
    if k = key then includedAt c rest else includedAtList cs key rest

end

mutual

/-- `P` holds at every node of the tree (the node itself and all
descendants). -/
def AllNodes (P : PathTreeNode → Prop) : PathTreeNode → Prop
  | .mk n f u i t l cs e s => P (.mk n f u i t l cs e s) ∧ AllNodesList P cs

def AllNodesList (P : PathTreeNode → Prop) : List (String × PathTreeNode) → Prop
  | [] => True
  | (_, c) :: rest => AllNodes P c ∧ AllNodesList P rest

end

mutual

/-- Specification count: the number of URL occurrences stored anywhere in
the tree. -/
def totalUrls : PathTreeNode → Nat
  | .mk _ _ urls _ _ _ cs _ _ => urls.length + totalUrlsList cs

def totalUrlsList : List (String × PathTreeNode) → Nat
  | [] => 0
  | (_, c) :: rest => totalUrls c + totalUrlsList rest

end

/-- `InclReach t n`: node `n` is reachable from `t` through a chain of
children each of which is marked `isIncluded` (the chain below `t`,
including `n` itself when `n ≠ t`). -/
inductive InclReach : PathTreeNode → PathTreeNode → Prop where
  | refl (t : PathTreeNode) : InclReach t t
  | step {t m : PathTreeNode} (c : String × PathTreeNode)
      (hc : c ∈ t.children) (hinc : c.2.isIncluded = true)
      (h : InclReach c.2 m) : InclReach t m

/-- The count invariant of spec §3: `limitedUrlCount ≤ totalUrlCount`, the
`totalUrlCount` recurrence, and the `limitedUrlCount` recurrence with zero
at excluded nodes. -/
def countInv (nd : PathTreeNode) : Prop :=
  nd.limitedUrlCount ≤ nd.totalUrlCount ∧
  nd.totalUrlCount = nd.urls.length + (nd.children.map (fun c => c.2.totalUrlCount)).sum ∧
  nd.limitedUrlCount =
    (if nd.isIncluded then
      nd.urls.length + (nd.children.map (fun c => c.2.limitedUrlCount)).sum
    else 0)

/-- Every URL stored at the node parsed successfully. -/
def parsedUrlsInv (parse : String → Option (List String)) (nd : PathTreeNode) : Prop :=
  ∀ u ∈ nd.urls, (parse u.loc).isSome = true

/-- Concrete stand-in for the platform URL parser, used by witnesses. -/
def demoParse : String → Option (List String) := fun loc =>
  if loc = "https://e.com/a" then some ["a"]
  else if loc = "https://e.com/a/b" then some ["a", "b"]
  else if loc = "https://e.com/a/c" then some ["a", "c"]
  else if loc = "https://e.com/d" then some ["d"]
  else none

/-- Concrete URL list used by witnesses. -/
def demoUrls : List SitemapUrl :=
  [⟨"https://e.com/a/b", none, none, none⟩,
   ⟨"https://e.com/a/c", none, none, none⟩,
   ⟨"https://e.com/d", none, none, none⟩,
   ⟨"not a url", none, none, none⟩]

/-! ### The sitemap resolution route

The route file defines `fetchSitemap`, `parseSitemapXml`,
`fetchNestedSitemaps` and a POST handler.  `fast-xml-parser` output is
modelled structurally: `parsed.urlset?.url` and
`parsed.sitemapindex?.sitemap` are each either absent, a single entry or
an array of entries, and every field of an entry may be absent (the XML
may lack it even though the TypeScript type declares a string).  The
network is abstracted as `net : String → Option (List SitemapUrl)`,
composing `fetchSitemap` with `parseSitemapXml` for one URL and returning
`none` when the fetch rejects (non-2xx or network failure). -/

/-- A JS value that is either a single entry or an array of entries;
`fast-xml-parser` produces the former for single-element occurrences. -/
inductive OneOrMany (α : Type) where
  | one (a : α)
  | many (as : List α)

/-- The array normalization `Array.isArray(x) ? x : [x]` (route lines
213-215 and 229-231). -/
def OneOrMany.toList {α : Type} : OneOrMany α → List α
  | .one a => [a]
  | .many as => as

/-- One parsed `<url>`/`<sitemap>` element; every member may be absent at
runtime. -/
structure RawEntry where
  loc : Option String := none
  lastmod : Option String := none
  changefreq : Option String := none
  priority : Option String := none
deriving DecidableEq, Repr

/-- The parsed XML document as seen by `parseSitemapXml`. -/
structure ParsedSitemap where
  urlset : Option (OneOrMany RawEntry) := none
  sitemapindex : Option (OneOrMany RawEntry) := none

/-- One element of `parseSitemapXml`'s result.  The runtime value of `loc`
is whatever the entry held, hence possibly `undefined` (modelled as
`Option String`) even though the declared type is `string`. -/
structure RawSitemapUrl where
  loc : Option String := none
  lastmod : Option String := none
  changefreq : Option String := none
  priority : Option String := none
deriving DecidableEq, Repr

/-- `parseSitemapXml` (route lines 207-243): push one output entry per
`urlset` entry (copying `loc`, `lastmod`, `changefreq`, `priority`) and
one per `sitemapindex` entry (copying `loc` and `lastmod` only), in that
order, with no validation of any field. -/
def parseSitemapXml (parsed : ParsedSitemap) : List RawSitemapUrl :=
  let fromUrlset : List RawSitemapUrl :=
    match parsed.urlset with
    | none => []
    | some entries =>
      entries.toList.map (fun e => ⟨e.loc, e.lastmod, e.changefreq, e.priority⟩)
  let fromIndex : List RawSitemapUrl :=
    match parsed.sitemapindex with
    | none => []
    | some entries => entries.toList.map (fun e => ⟨e.loc, e.lastmod, none, none⟩)
  fromUrlset ++ fromIndex

/-- The `urlset` entries of a document, as a plain list. -/
def urlsetEntries (p : ParsedSitemap) : List RawEntry :=
  (p.urlset.map OneOrMany.toList).getD []

/-- The `sitemapindex` entries of a document, as a plain list. -/
def indexEntries (p : ParsedSitemap) : List RawEntry :=
  (p.sitemapindex.map OneOrMany.toList).getD []

/-- `haystack` contains `needle` as a contiguous sublist; executable
translation of JS `String.prototype.includes` on the character level. -/
def listContainsSub : List Char → List Char → Bool
  | _, [] => true
  | [], _ :: _ => false
  | a :: as, p :: ps => List.isPrefixOf (p :: ps) (a :: as) || listContainsSub as (p :: ps)

/-- JS `s.includes(pat)`. -/
def jsIncludes (s pat : String) : Bool := listContainsSub s.toList pat.toList

/-- JS `s.endsWith(pat)`. -/
def jsEndsWith (s pat : String) : Bool := List.isSuffixOf pat.toList s.toList

/-- The classification guard of the resolution POST handler (route lines
292-298): entered only when the list is non-empty and the FIRST entry's
`loc` contains `"sitemap"`, and then requires every entry's `loc` to end
in `".xml"` or contain `"sitemap"`.  For this code path entries are
modelled with present `loc` strings (`SitemapUrl`): an absent `loc` would
make the handler throw before classifying. -/
def sitemapIndexAttempted (urls : List SitemapUrl) : Bool :=
  match urls with
  | [] => false
  | u0 :: rest =>
    jsIncludes u0.loc "sitemap" &&
      (u0 :: rest).all (fun u => jsEndsWith u.loc ".xml" || jsIncludes u.loc "sitemap")

/-- `fetchNestedSitemaps` (route lines 245-265): fetch at most the first
10 nested sitemaps; `Promise.allSettled` lets each fetch fail
independently (`net s.loc = none`), and only fulfilled results are
concatenated. -/
def fetchNestedSitemaps (net : String → Option (List SitemapUrl))
    (sitemapUrls : List SitemapUrl) : List SitemapUrl :=
  ((sitemapUrls.take 10).filterMap (fun s => net s.loc)).flatten

/-- The core of the resolution POST handler after request validation
(route lines 288-308): fetch and parse the top-level document, attempt
nested resolution when the classification guard passes, and fall back to
the outer list when no nested entries were resolved.  `none` models the
error response when the top-level fetch fails. -/
def resolveSitemap (net : String → Option (List SitemapUrl)) (url : String) :
    Option (List SitemapUrl) :=
  match net url with
  | none => none
  | some urls =>
    if sitemapIndexAttempted urls then
      let nestedUrls := fetchNestedSitemaps net urls
      if nestedUrls.length > 0 then some nestedUrls else some urls
    else some urls

/-- Concrete network for the resolver witness: a sitemap index with two
nested sitemap references, one of which fails to fetch. -/
def demoNet : String → Option (List SitemapUrl) := fun s =>
  if s = "https://e.com/sitemap.xml" then
    some [⟨"https://e.com/sitemap-a.xml", none, none, none⟩,
          ⟨"https://e.com/sitemap-b.xml", none, none, none⟩]
  else if s = "https://e.com/sitemap-a.xml" then
    some [⟨"https://e.com/page1", none, none, none⟩]
  else none

/-! ### The batch metadata-fetch route

The route file defines `fetchPageContent`, `extractMetaTags`, `processUrl`
and a POST handler.  A page fetch outcome is either a settled HTTP
response (with its `ok` flag, status and body) or a rejection carrying the
thrown JS value (network error, or the abort triggered by the 10-second
timeout).  HTML metadata extraction itself is the cheerio boundary: it is
abstracted as an oracle `q : String → String → ExtractedFields` from the
HTML body and page URL to the extracted field values; `extractMetaTags`
keeps the code's own record construction (the `url` and `status` fields). -/

/-- A thrown JS value: an `Error` instance with its `message`, or any
other value. -/
structure JsError where
  isErrorInstance : Bool
  message : String
deriving DecidableEq, Repr

/-- Outcome of the platform `fetch` for one page. -/
inductive FetchResponse where
  | response (ok : Bool) (status : Nat) (statusText : String) (body : String)
  | netFailure (err : JsError)
deriving DecidableEq, Repr

/-- `fetchPageContent` (route lines 5-30): a rejected fetch propagates the
thrown value; a settled non-ok response throws
`Error("HTTP <status>: <statusText>")`; an ok response yields the body. -/
def fetchPageContent (r : FetchResponse) : Except JsError String :=
  match r with
  | .netFailure e => .error e
  | .response ok status statusText body =>
    if !ok then .error ⟨true, "HTTP " ++ toString status ++ ": " ++ statusText⟩
    else .ok body

/-- The page fetch failed (rejected, or settled non-2xx). -/
def fetchFailed : FetchResponse → Prop
  | .netFailure _ => True
  | .response ok _ _ _ => ok = false

/-- `MetaTag` from `src/types/index.ts`. -/
structure MetaTag where
  name : String
  content : String
  property : Option String := none
deriving DecidableEq, Repr

/-- The `status` field of `PageMetaData`. -/
inductive PageStatus where
  | success
  | error
deriving DecidableEq, Repr

/-- `PageMetaData` from `src/types/index.ts`. -/
structure PageMetaData where
  url : String
  title : String
  description : String
  canonical : String
  ogTitle : String
  ogDescription : String
  ogImage : String
  ogUrl : String
  ogType : String
  ogSiteName : String
  twitterCard : String
  twitterTitle : String
  twitterDescription : String
  twitterImage : String
  twitterSite : String
  favicon : String
  allMetaTags : List MetaTag
  status : PageStatus
  error : Option String := none
deriving DecidableEq, Repr

/-- The field values produced by the cheerio queries of `extractMetaTags`
(route lines 32-105), abstracted as the extraction boundary. -/
structure ExtractedFields where
  title : String
  description : String
  canonical : String
  ogTitle : String
  ogDescription : String
  ogImage : String
  ogUrl : String
  ogType : String
  ogSiteName : String
  twitterCard : String
  twitterTitle : String
  twitterDescription : String
  twitterImage : String
  twitterSite : String
  favicon : String
  allMetaTags : List MetaTag
deriving DecidableEq, Repr

/-- `extractMetaTags` (route lines 32-109): the record construction on the
success path — `url` is the requested URL, `status` is `'success'`, the
remaining fields come from the cheerio queries `q`. -/
def extractMetaTags (q : String → String → ExtractedFields) (html url : String) :
    PageMetaData :=
  let f := q html url
  { url := url, title := f.title, description := f.description, canonical := f.canonical,
    ogTitle := f.ogTitle, ogDescription := f.ogDescription, ogImage := f.ogImage,
    ogUrl := f.ogUrl, ogType := f.ogType, ogSiteName := f.ogSiteName,
    twitterCard := f.twitterCard, twitterTitle := f.twitterTitle,
    twitterDescription := f.twitterDescription, twitterImage := f.twitterImage,
    twitterSite := f.twitterSite, favicon := f.favicon, allMetaTags := f.allMetaTags,
    status := .success, error := none }

/-- `processUrl` (route lines 111-138): extract on success; on any failure
return the error record with empty fields, `status: 'error'` and the
thrown message (or `'Unknown error'` for a non-`Error` value). -/
def processUrl (q : String → String → ExtractedFields) (r : FetchResponse)
    (url : String) : PageMetaData :=
  match fetchPageContent r with
  | .ok html => extractMetaTags q html url
  | .error e =>
    { url := url, title := "", description := "", canonical := "", ogTitle := "",
      ogDescription := "", ogImage := "", ogUrl := "", ogType := "", ogSiteName := "",
      twitterCard := "", twitterTitle := "", twitterDescription := "", twitterImage := "",
      twitterSite := "", favicon := "", allMetaTags := [], status := .error,
      error := some (if e.isErrorInstance then e.message else "Unknown error") }

/-- `FetchMetaResponse` from `src/types/index.ts`. -/
structure FetchMetaResponse where
  results : List PageMetaData
  processedCount : Nat
  errorCount : Nat
deriving DecidableEq, Repr

/-- The `for (let i = 0; ...; i += batchSize)` loop of the metadata POST
handler (route lines 158-162) with `batchSize = 5`: each batch settles
via `Promise.all` (which preserves input order) before the next starts. -/
def processInBatches (process : String → PageMetaData) (urls : List String) :
    List PageMetaData :=
  if urls.isEmpty then []
  else (urls.take 5).map process ++ processInBatches process (urls.drop 5)
termination_by urls.length
decreasing_by
  rename_i h
  simp [List.isEmpty_iff] at h
  have hpos : 0 < urls.length := List.length_pos.mpr h
  simp
  omega

/-- The metadata POST handler (route lines 140-183) after JSON parsing:
reject an empty list (`none` models the 400 response), truncate to the
first 50 URLs, process in batches of 5, and report the counts. -/
def fetchMetaPOST (process : String → PageMetaData) (urls : List String) :
    Option FetchMetaResponse :=
  if urls.isEmpty then none
  else
    let urlsToProcess := urls.take 50
    let results := processInBatches process urlsToProcess
    some ⟨results, results.length,
      (results.filter (fun r => r.status == PageStatus.error)).length⟩

/-! ### The selection toggle -/

/-- `handleToggleSelect` from `src/app/page.tsx` (lines 196-207): the
selection `Set<string>` is modelled as a list without duplicates in
insertion order; `Set.has` is `contains`, `Set.delete` removes the
element, `Set.add` appends when absent. -/
def handleToggleSelect (selectedUrls : List String) (urlsToToggle : List SitemapUrl) :
    List String :=
  let locs := urlsToToggle.map (fun u => u.loc)
  let allSelected := locs.all (fun loc => selectedUrls.contains loc)
  if allSelected then
    selectedUrls.filter (fun loc => !locs.contains loc)
  else
    locs.foldl (fun sel loc => if sel.contains loc then sel else sel ++ [loc]) selectedUrls

/-! ### Basic lemmas about the tree embedding -/

@[simp] theorem PathTreeNode.name_mk (n f : String) (u : List SitemapUrl) (i : Bool)
    (t l : Nat) (cs : List (String × PathTreeNode)) (e s : Bool) :
    (PathTreeNode.mk n f u i t l cs e s).name = n := rfl

@[simp] theorem PathTreeNode.fullPath_mk (n f : String) (u : List SitemapUrl) (i : Bool)
    (t l : Nat) (cs : List (String × PathTreeNode)) (e s : Bool) :
    (PathTreeNode.mk n f u i t l cs e s).fullPath = f := rfl

@[simp] theorem PathTreeNode.urls_mk (n f : String) (u : List SitemapUrl) (i : Bool)
    (t l : Nat) (cs : List (String × PathTreeNode)) (e s : Bool) :
    (PathTreeNode.mk n f u i t l cs e s).urls = u := rfl

@[simp] theorem PathTreeNode.isIncluded_mk (n f : String) (u : List SitemapUrl) (i : Bool)
    (t l : Nat) (cs : List (String × PathTreeNode)) (e s : Bool) :
    (PathTreeNode.mk n f u i t l cs e s).isIncluded = i := rfl

@[simp] theorem PathTreeNode.totalUrlCount_mk (n f : String) (u : List SitemapUrl) (i : Bool)
    (t l : Nat) (cs : List (String × PathTreeNode)) (e s : Bool) :
    (PathTreeNode.mk n f u i t l cs e s).totalUrlCount = t := rfl

@[simp] theorem PathTreeNode.limitedUrlCount_mk (n f : String) (u : List SitemapUrl) (i : Bool)
    (t l : Nat) (cs : List (String × PathTreeNode)) (e s : Bool) :
    (PathTreeNode.mk n f u i t l cs e s).limitedUrlCount = l := rfl

@[simp] theorem PathTreeNode.children_mk (n f : String) (u : List SitemapUrl) (i : Bool)
    (t l : Nat) (cs : List (String × PathTreeNode)) (e s : Bool) :
    (PathTreeNode.mk n f u i t l cs e s).children = cs := rfl

@[simp] theorem PathTreeNode.setIncluded_mk (n f : String) (u : List SitemapUrl) (i : Bool)
    (t l : Nat) (cs : List (String × PathTreeNode)) (e s b : Bool) :
    (PathTreeNode.mk n f u i t l cs e s).setIncluded b = .mk n f u b t l cs e s := rfl

theorem nodeSize_lt_of_mem {cs : List (String × PathTreeNode)} {p : String × PathTreeNode}
    (hp : p ∈ cs) : nodeSize p.2 < nodeSizeList cs := by
  induction cs with
  | nil => cases hp
  | cons q rest ih =>
    obtain ⟨k, c⟩ := q
    rcases List.mem_cons.mp hp with h | h
    · subst h
      simp [nodeSizeList]
      omega
    · have := ih h
      simp [nodeSizeList]
      omega

/-- Induction over the nested tree structure: to prove `motive` for every
node it suffices to prove it for a node given it for all its children. -/
theorem PathTreeNode.myInduction {motive : PathTreeNode → Prop}
    (step : ∀ n f u i t l cs e s,
      (∀ p ∈ cs, motive p.2) → motive (.mk n f u i t l cs e s)) :
    ∀ node, motive node
  | .mk n f u i t l cs e s =>
    step n f u i t l cs e s (fun p hp => PathTreeNode.myInduction step p.2)
termination_by node => nodeSize node
decreasing_by
  have := nodeSize_lt_of_mem hp
  simp [nodeSize]
  omega

theorem allNodesList_iff (P : PathTreeNode → Prop) (cs : List (String × PathTreeNode)) :
    AllNodesList P cs ↔ ∀ p ∈ cs, AllNodes P p.2 := by
  induction cs with
  | nil => simp [AllNodesList]
  | cons q rest ih =>
    obtain ⟨k, c⟩ := q
    simp [AllNodesList, ih]

theorem allNodes_mk_iff (P : PathTreeNode → Prop) (n f : String) (u : List SitemapUrl)
    (i : Bool) (t l : Nat) (cs : List (String × PathTreeNode)) (e s : Bool) :
    AllNodes P (.mk n f u i t l cs e s) ↔
      P (.mk n f u i t l cs e s) ∧ ∀ p ∈ cs, AllNodes P p.2 := by
  rw [AllNodes, allNodesList_iff]

theorem AllNodes.self {P : PathTreeNode → Prop} {t : PathTreeNode}
    (h : AllNodes P t) : P t := by
  obtain ⟨n, f, u, i, tc, l, cs, e, s⟩ := t
  rw [AllNodes] at h
  exact h.1

theorem markChildrenList_fst (maxC : Nat) (p : Bool) (ic : List String) :
    ∀ cs : List (String × PathTreeNode),
      (markChildrenList maxC p ic cs).1 =
        cs.map (fun c =>
          (c.1, (markIncludedChildren maxC (c.2.setIncluded (p && ic.contains c.1))
            (p && ic.contains c.1)).1)) := by
  intro cs
  induction cs with
  | nil => simp [markChildrenList]
  | cons q rest ih =>
    obtain ⟨k, c⟩ := q
    obtain ⟨cn, cf, cu, ci, ct, cl, cc, ce, csel⟩ := c
    rw [markChildrenList]
    simp only [ih, PathTreeNode.setIncluded_mk, List.map_cons]

theorem markIncludedChildren_fst (maxC : Nat) (p : Bool) (n f : String)
    (u : List SitemapUrl) (i : Bool) (t l : Nat) (cs : List (String × PathTreeNode))
    (e s : Bool) :
    (markIncludedChildren maxC (.mk n f u i t l cs e s) p).1 =
      .mk n f u i
        (u.length + (((markChildrenList maxC p (includedKeys maxC f cs) cs).1).map
          (fun c => c.2.totalUrlCount)).sum)
        (if i then
          u.length + (((markChildrenList maxC p (includedKeys maxC f cs) cs).1).map
            (fun c => c.2.limitedUrlCount)).sum
         else 0)
        ((markChildrenList maxC p (includedKeys maxC f cs) cs).1) e s := by
  rw [markIncludedChildren]
  cases i <;> simp [countAllUrls, countLimitedUrls]

theorem mark_fst_isIncluded (maxC : Nat) (p : Bool) (t : PathTreeNode) :
    ((markIncludedChildren maxC t p).1).isIncluded = t.isIncluded := by
  obtain ⟨n, f, u, i, tc, l, cs, e, s⟩ := t
  rw [markIncludedChildren_fst]
  simp

theorem mark_fst_urls (maxC : Nat) (p : Bool) (t : PathTreeNode) :
    ((markIncludedChildren maxC t p).1).urls = t.urls := by
  obtain ⟨n, f, u, i, tc, l, cs, e, s⟩ := t
  rw [markIncludedChildren_fst]
  simp

theorem mark_allNodes_countInv (t : PathTreeNode) :
    ∀ (b p : Bool) (maxC : Nat),
      AllNodes countInv ((markIncludedChildren maxC (t.setIncluded b) p).1) := by
  induction t using PathTreeNode.myInduction with
  | step n f u i tc l cs e s ih =>
    intro b p maxC
    rw [PathTreeNode.setIncluded_mk, markIncludedChildren_fst]
    have hchild : ∀ q ∈ (markChildrenList maxC p (includedKeys maxC f cs) cs).1,
        AllNodes countInv q.2 := by
      intro q hq
      rw [markChildrenList_fst] at hq
      obtain ⟨c, hc, rfl⟩ := List.mem_map.mp hq
      exact ih c hc _ _ _
    rw [allNodes_mk_iff]
    refine ⟨?_, hchild⟩
    have hle : ∀ q ∈ (markChildrenList maxC p (includedKeys maxC f cs) cs).1,
        q.2.limitedUrlCount ≤ q.2.totalUrlCount := fun q hq => ((hchild q hq).self).1
    refine ⟨?_, by simp [countInv], by simp [countInv]⟩
    simp only [countInv, PathTreeNode.limitedUrlCount_mk, PathTreeNode.totalUrlCount_mk]
    cases b with
    | false => simp
    | true =>
      simp only [if_pos rfl, reduceIte]
      exact Nat.add_le_add_left (List.sum_le_sum hle) u.length

theorem insertUrl_isIncluded (u : SitemapUrl) (segs : List String) (t : PathTreeNode) :
    (insertUrl u segs t).isIncluded = t.isIncluded := by
  obtain ⟨n, f, urls, i, tc, l, cs, e, s⟩ := t
  cases segs <;> simp [insertUrl]

theorem insertAll_isIncluded (parse : String → Option (List String)) (urls : List SitemapUrl) :
    (insertAll parse urls).isIncluded = true := by
  rw [insertAll]
  have main : ∀ (l : List SitemapUrl) (acc : PathTreeNode), acc.isIncluded = true →
      (l.foldl (fun root u =>
        match parse u.loc with
        | some segs => insertUrl u segs root
        | none => root) acc).isIncluded = true := by
    intro l
    induction l with
    | nil => intro acc h; simpa using h
    | cons v rest ih =>
      intro acc h
      simp only [List.foldl_cons]
      apply ih
      cases hv : parse v.loc with
      | some segs => simpa [hv, insertUrl_isIncluded] using h
      | none => simpa [hv] using h
  exact main urls rootInit rfl

theorem setIncluded_eq_self {t : PathTreeNode} {b : Bool} (h : t.isIncluded = b) :
    t.setIncluded b = t := by
  obtain ⟨n, f, urls, i, tc, l, cs, e, s⟩ := t
  rw [PathTreeNode.isIncluded_mk] at h
  rw [PathTreeNode.setIncluded_mk, h]

/-- C1: after `buildPathTree(urls, maxChildrenPerParent)`, every node of
the resulting tree satisfies `limitedUrlCount ≤ totalUrlCount`;
`totalUrlCount` equals the node's own `urls.length` plus the sum of its
children's `totalUrlCount`; and `limitedUrlCount` satisfies the same
recurrence but is `0` whenever the node's `isIncluded` is `false`. -/
theorem buildPathTree_countInv (parse : String → Option (List String))
    (urls : List SitemapUrl) (maxChildrenPerParent : Nat) :
    AllNodes countInv (buildPathTree parse urls maxChildrenPerParent).tree := by
  have hroot := insertAll_isIncluded parse urls
  simp only [buildPathTree]
  rw [← setIncluded_eq_self hroot]
  exact mark_allNodes_countInv _ true true maxChildrenPerParent

theorem totalUrlsList_eq_sum :
    ∀ cs : List (String × PathTreeNode),
      totalUrlsList cs = (cs.map (fun c => totalUrls c.2)).sum := by
  intro cs
  induction cs with
  | nil => simp [totalUrlsList]
  | cons q rest ih =>
    obtain ⟨k, c⟩ := q
    rw [totalUrlsList]
    simp [ih]

theorem mark_totalUrlCount (t : PathTreeNode) :
    ∀ (b p : Bool) (maxC : Nat),
      ((markIncludedChildren maxC (t.setIncluded b) p).1).totalUrlCount = totalUrls t := by
  induction t using PathTreeNode.myInduction with
  | step n f u i tc l cs e s ih =>
    intro b p maxC
    rw [PathTreeNode.setIncluded_mk, markIncludedChildren_fst, PathTreeNode.totalUrlCount_mk,
      markChildrenList_fst, List.map_map]
    have hpt : ∀ c ∈ cs,
        ((fun c => c.2.totalUrlCount) ∘ fun c =>
          (c.1, (markIncludedChildren maxC
            (c.2.setIncluded (p && (includedKeys maxC f cs).contains c.1))
            (p && (includedKeys maxC f cs).contains c.1)).1)) c = totalUrls c.2 := by
      intro c hc
      exact ih c hc _ _ _
    rw [List.map_congr_left hpt, totalUrls, totalUrlsList_eq_sum]

theorem totalUrls_insertUrl (u : SitemapUrl) :
    ∀ (segs : List String) (t : PathTreeNode),
      totalUrls (insertUrl u segs t) = totalUrls t + 1 := by
  intro segs
  induction segs with
  | nil =>
    intro t
    obtain ⟨n, f, urls, i, tc, l, cs, e, s⟩ := t
    rw [insertUrl, totalUrls, totalUrls]
    simp
    omega
  | cons seg rest ih =>
    intro t
    obtain ⟨n, f, urls, i, tc, l, cs, e, s⟩ := t
    rw [insertUrl, totalUrls, totalUrls]
    have hlist : ∀ (cs' : List (String × PathTreeNode)) (fp : String),
        totalUrlsList (insertChild u seg fp rest cs') = totalUrlsList cs' + 1 := by
      intro cs'
      induction cs' with
      | nil =>
        intro fp
        rw [insertChild]
        rw [totalUrlsList, totalUrlsList, totalUrlsList, ih, newNode, totalUrls, totalUrlsList]
        simp
      | cons q rest' ih2 =>
        intro fp
        obtain ⟨k, c⟩ := q
        by_cases hk : k = seg
        · rw [insertChild, if_pos hk, totalUrlsList, totalUrlsList, ih]
          omega
        · rw [insertChild, if_neg hk, totalUrlsList, totalUrlsList, ih2]
          omega
    rw [hlist]
    omega

theorem totalUrls_insertAll (parse : String → Option (List String)) (urls : List SitemapUrl) :
    totalUrls (insertAll parse urls)
      = (urls.filter (fun u => (parse u.loc).isSome)).length := by
  rw [insertAll]
  have main : ∀ (l : List SitemapUrl) (acc : PathTreeNode),
      totalUrls (l.foldl (fun root u =>
        match parse u.loc with
        | some segs => insertUrl u segs root
        | none => root) acc)
      = totalUrls acc + (l.filter (fun u => (parse u.loc).isSome)).length := by
    intro l
    induction l with
    | nil => simp
    | cons v rest ih =>
      intro acc
      simp only [List.foldl_cons]
      rw [ih]
      cases hv : parse v.loc with
      | some segs =>
        simp [hv, totalUrls_insertUrl, List.filter_cons]
        omega
      | none => simp [hv, List.filter_cons]
  rw [main urls rootInit, rootInit, totalUrls, totalUrlsList]
  simp

theorem mark_allNodes_parsedUrls (parse : String → Option (List String)) (t : PathTreeNode) :
    AllNodes (parsedUrlsInv parse) t →
    ∀ (b p : Bool) (maxC : Nat),
      AllNodes (parsedUrlsInv parse) ((markIncludedChildren maxC (t.setIncluded b) p).1) := by
  induction t using PathTreeNode.myInduction with
  | step n f u i tc l cs e s ih =>
    intro ht b p maxC
    rw [allNodes_mk_iff] at ht
    rw [PathTreeNode.setIncluded_mk, markIncludedChildren_fst, allNodes_mk_iff]
    constructor
    · intro x hx
      exact ht.1 x (by simpa using hx)
    · intro q hq
      rw [markChildrenList_fst] at hq
      obtain ⟨c, hc, rfl⟩ := List.mem_map.mp hq
      exact ih c hc (ht.2 c hc) _ _ _

theorem insertUrl_allNodes_parsedUrls (parse : String → Option (List String))
    (u : SitemapUrl) (hu : (parse u.loc).isSome = true) :
    ∀ (segs : List String) (t : PathTreeNode),
      AllNodes (parsedUrlsInv parse) t →
      AllNodes (parsedUrlsInv parse) (insertUrl u segs t) := by
  intro segs
  induction segs with
  | nil =>
    intro t ht
    obtain ⟨n, f, urls, i, tc, l, cs, e, s⟩ := t
    rw [allNodes_mk_iff] at ht
    rw [insertUrl, allNodes_mk_iff]
    refine ⟨?_, ht.2⟩
    intro x hx
    rw [PathTreeNode.urls_mk] at hx
    rcases List.mem_append.mp hx with h | h
    · exact ht.1 x (by simpa using h)
    · rw [List.mem_singleton.mp h]
      exact hu
  | cons seg rest ih =>
    intro t ht
    obtain ⟨n, f, urls, i, tc, l, cs, e, s⟩ := t
    rw [allNodes_mk_iff] at ht
    rw [insertUrl, allNodes_mk_iff]
    refine ⟨?_, ?_⟩
    · intro x hx
      exact ht.1 x (by simpa using hx)
    · have hnew : ∀ fp : String, AllNodes (parsedUrlsInv parse) (newNode seg fp) := by
        intro fp
        rw [newNode, allNodes_mk_iff]
        exact ⟨fun x hx => by simp at hx, fun q hq => by simp at hq⟩
      have hlist : ∀ (cs' : List (String × PathTreeNode)) (fp : String),
          (∀ q ∈ cs', AllNodes (parsedUrlsInv parse) q.2) →
          ∀ q ∈ insertChild u seg fp rest cs', AllNodes (parsedUrlsInv parse) q.2 := by
        intro cs'
        induction cs' with
        | nil =>
          intro fp h q hq
          rw [insertChild] at hq
          rw [List.mem_singleton.mp hq]
          exact ih (newNode seg fp) (hnew fp)
        | cons q0 rest' ih2 =>
          intro fp h q hq
          obtain ⟨k, c⟩ := q0
          by_cases hk : k = seg
          · rw [insertChild, if_pos hk] at hq
            rcases List.mem_cons.mp hq with h0 | h0
            · rw [h0]
              exact ih c (h (k, c) (List.mem_cons_self _ _))
            · exact h q (List.mem_cons_of_mem _ h0)
          · rw [insertChild, if_neg hk] at hq
            rcases List.mem_cons.mp hq with h0 | h0
            · rw [h0]
              exact h (k, c) (List.mem_cons_self _ _)
            · exact ih2 fp (fun q' hq' => h q' (List.mem_cons_of_mem _ hq')) q h0
      exact hlist cs _ ht.2

theorem insertAll_allNodes_parsedUrls (parse : String → Option (List String))
    (urls : List SitemapUrl) :
    AllNodes (parsedUrlsInv parse) (insertAll parse urls) := by
  rw [insertAll]
  have hroot : AllNodes (parsedUrlsInv parse) rootInit := by
    rw [rootInit, allNodes_mk_iff]
    exact ⟨fun x hx => by simp at hx, fun q hq => by simp at hq⟩
  have main : ∀ (l : List SitemapUrl) (acc : PathTreeNode),
      AllNodes (parsedUrlsInv parse) acc →
      AllNodes (parsedUrlsInv parse) (l.foldl (fun root u =>
        match parse u.loc with
        | some segs => insertUrl u segs root
        | none => root) acc) := by
    intro l
    induction l with
    | nil => intro acc h; simpa using h
    | cons v rest ih =>
      intro acc h
      simp only [List.foldl_cons]
      apply ih
      cases hv : parse v.loc with
      | some segs =>
        simp only [hv]
        exact insertUrl_allNodes_parsedUrls parse v (by simp [hv]) segs acc h
      | none => simpa [hv] using h
  exact main urls rootInit hroot

/-- C2: for every input URL list and every limit, the root's
`totalUrlCount` after `buildPathTree` equals the number of input entries
whose `loc` parses as a valid absolute URL; entries that fail URL parsing
are silently dropped and contribute to no node (every URL stored in the
tree parsed successfully). -/
theorem buildPathTree_root_totalUrlCount (parse : String → Option (List String))
    (urls : List SitemapUrl) (maxChildrenPerParent : Nat) :
    (buildPathTree parse urls maxChildrenPerParent).tree.totalUrlCount
      = (urls.filter (fun u => (parse u.loc).isSome)).length
    ∧ AllNodes (parsedUrlsInv parse) (buildPathTree parse urls maxChildrenPerParent).tree := by
  have hroot := insertAll_isIncluded parse urls
  simp only [buildPathTree]
  constructor
  · rw [← setIncluded_eq_self hroot, mark_totalUrlCount, totalUrls_insertAll]
  · rw [← setIncluded_eq_self hroot]
    exact mark_allNodes_parsedUrls parse _ (insertAll_allNodes_parsedUrls parse urls) true true _

theorem includedKeys_contains_mono (f : String) (cs : List (String × PathTreeNode))
    {k1 k2 : Nat} (hk : k1 ≤ k2) (x : String) :
    (includedKeys k1 f cs).contains x = true → (includedKeys k2 f cs).contains x = true := by
  simp only [includedKeys]
  by_cases hf : f = ""
  · simp [hf]
  · simp only [if_neg hf]
    rw [List.elem_iff, List.elem_iff]
    intro hx
    have h1 : ((cs.filter (fun c => hasAnyUrls c.2)).map Prod.fst).take k1
        = (((cs.filter (fun c => hasAnyUrls c.2)).map Prod.fst).take k2).take k1 := by
      rw [List.take_take, Nat.min_eq_left hk]
    rw [h1] at hx
    exact List.take_subset _ _ hx

theorem mark_mono (t : PathTreeNode) :
    ∀ (b1 b2 p1 p2 : Bool) (k1 k2 : Nat),
      (b1 = true → b2 = true) → (p1 = true → p2 = true) → k1 ≤ k2 →
      ∀ path : List String,
        includedAt ((markIncludedChildren k1 (t.setIncluded b1) p1).1) path = true →
        includedAt ((markIncludedChildren k2 (t.setIncluded b2) p2).1) path = true := by
  induction t using PathTreeNode.myInduction with
  | step n f u i tc l cs e s ih =>
    intro b1 b2 p1 p2 k1 k2 hb hp hk path
    rw [PathTreeNode.setIncluded_mk, PathTreeNode.setIncluded_mk,
      markIncludedChildren_fst, markIncludedChildren_fst]
    cases path with
    | nil =>
      simp only [includedAt, PathTreeNode.isIncluded_mk]
      exact hb
    | cons key rest =>
      simp only [includedAt]
      rw [markChildrenList_fst, markChildrenList_fst]
      have main : ∀ cs' : List (String × PathTreeNode),
          (∀ q ∈ cs', ∀ (b1 b2 p1 p2 : Bool) (k1 k2 : Nat),
            (b1 = true → b2 = true) → (p1 = true → p2 = true) → k1 ≤ k2 →
            ∀ path,
              includedAt ((markIncludedChildren k1 (q.2.setIncluded b1) p1).1) path = true →
              includedAt ((markIncludedChildren k2 (q.2.setIncluded b2) p2).1) path = true) →
          ∀ key rest,
          includedAtList (cs'.map (fun c =>
            (c.1, (markIncludedChildren k1
              (c.2.setIncluded (p1 && (includedKeys k1 f cs).contains c.1))
              (p1 && (includedKeys k1 f cs).contains c.1)).1))) key rest = true →
          includedAtList (cs'.map (fun c =>
            (c.1, (markIncludedChildren k2
              (c.2.setIncluded (p2 && (includedKeys k2 f cs).contains c.1))
              (p2 && (includedKeys k2 f cs).contains c.1)).1))) key rest = true := by
        intro cs'
        induction cs' with
        | nil =>
          intro _ key rest h
          simpa [includedAtList] using h
        | cons q0 rest' ihl =>
          intro hq key rest h
          obtain ⟨k0, c0⟩ := q0
          simp only [List.map_cons] at h ⊢
          rw [includedAtList] at h ⊢
          by_cases hkey : k0 = key
          · rw [if_pos hkey] at h ⊢
            have hmono : (p1 && (includedKeys k1 f cs).contains k0) = true →
                (p2 && (includedKeys k2 f cs).contains k0) = true := by
              intro hand
              simp only [Bool.and_eq_true] at hand ⊢
              exact ⟨hp hand.1, includedKeys_contains_mono f cs hk k0 hand.2⟩
            exact hq (k0, c0) (List.mem_cons_self _ _) _ _ _ _ _ _ hmono hmono hk rest h
          · rw [if_neg hkey] at h ⊢
            exact ihl (fun q hq' => hq q (List.mem_cons_of_mem _ hq')) key rest h
      exact main cs ih key rest

/-- C3: for every URL list and limits `k1 ≤ k2`, every tree node marked
`isIncluded` after `buildPathTree(urls, k1)` (identified by its chain of
child keys) is also marked `isIncluded` after `buildPathTree(urls, k2)`:
raising the limit only adds previously-excluded branches, never removes
previously-included ones. -/
theorem buildPathTree_limit_mono (parse : String → Option (List String))
    (urls : List SitemapUrl) (k1 k2 : Nat) (hk : k1 ≤ k2) (path : List String)
    (h : includedAt (buildPathTree parse urls k1).tree path = true) :
    includedAt (buildPathTree parse urls k2).tree path = true := by
  have hroot := insertAll_isIncluded parse urls
  simp only [buildPathTree] at h ⊢
  rw [← setIncluded_eq_self hroot] at h ⊢
  exact mark_mono _ true true true true k1 k2 id id hk path h

/-- Witness for C3 at a concrete input: the path `a/b` is included when
building `demoUrls` with limit 1, hence also with limit 2. -/
theorem buildPathTree_limit_mono_witness :
    includedAt (buildPathTree demoParse demoUrls 2).tree ["a", "b"] = true := by
  apply buildPathTree_limit_mono demoParse demoUrls 1 2 (by decide) ["a", "b"]
  simp [buildPathTree, insertAll, demoUrls, demoParse, insertUrl, insertChild, newNode,
    rootInit, markIncludedChildren, markChildrenList, includedKeys, hasAnyUrls,
    hasAnyUrlsList, countAllUrls, countLimitedUrls, includedAt, includedAtList]

theorem getAllUrls_excluded {t : PathTreeNode} (h : t.isIncluded = false) :
    getAllUrlsFromNode t = [] := by
  obtain ⟨n, f, urls, i, tc, l, cs, e, s⟩ := t
  rw [PathTreeNode.isIncluded_mk] at h
  subst h
  rw [getAllUrlsFromNode]
  simp

theorem mem_getAllUrlsFromChildren {u : SitemapUrl} :
    ∀ cs : List (String × PathTreeNode),
      u ∈ getAllUrlsFromChildren cs ↔ ∃ p ∈ cs, u ∈ getAllUrlsFromNode p.2 := by
  intro cs
  induction cs with
  | nil => simp [getAllUrlsFromChildren]
  | cons q rest ih =>
    obtain ⟨k, c⟩ := q
    rw [getAllUrlsFromChildren]
    simp [ih]

theorem getAllUrls_iff_reach (t : PathTreeNode) (u : SitemapUrl) :
    t.isIncluded = true →
    (u ∈ getAllUrlsFromNode t ↔ ∃ m, InclReach t m ∧ u ∈ m.urls) := by
  induction t using PathTreeNode.myInduction with
  | step n f urls i tc l cs e s ih =>
    intro hi
    rw [PathTreeNode.isIncluded_mk] at hi
    subst hi
    rw [getAllUrlsFromNode]
    simp only [Bool.not_true, Bool.false_eq_true, if_false]
    constructor
    · intro hu
      rcases List.mem_append.mp hu with h | h
      · exact ⟨.mk n f urls true tc l cs e s, InclReach.refl _, by simpa using h⟩
      · rw [mem_getAllUrlsFromChildren] at h
        obtain ⟨p, hp, hup⟩ := h
        cases hpi : p.2.isIncluded with
        | false =>
          rw [getAllUrls_excluded hpi] at hup
          cases hup
        | true =>
          obtain ⟨m, hr, hm⟩ := (ih p hp hpi).mp hup
          exact ⟨m, InclReach.step p (by simpa using hp) hpi hr, hm⟩
    · rintro ⟨m, hr, hm⟩
      cases hr with
      | refl =>
        exact List.mem_append.mpr (Or.inl (by simpa using hm))
      | step c hc hinc h =>
        refine List.mem_append.mpr (Or.inr ?_)
        rw [mem_getAllUrlsFromChildren]
        exact ⟨c, by simpa using hc, (ih c (by simpa using hc) hinc).mpr ⟨m, h, hm⟩⟩

theorem buildPathTree_root_isIncluded (parse : String → Option (List String))
    (urls : List SitemapUrl) (maxC : Nat) :
    (buildPathTree parse urls maxC).tree.isIncluded = true := by
  simp only [buildPathTree]
  rw [mark_fst_isIncluded]
  exact insertAll_isIncluded parse urls

/-- C7: for every built tree, `getAllUrlsFromNode` applied to the root
returns exactly the URLs attached to nodes whose entire ancestor-path
chain below the root (including the node itself) is marked `isIncluded`
(`InclReach` demands `isIncluded` at every step of the chain); children of
an excluded node are never visited and contribute nothing. -/
theorem getAllUrlsFromNode_root_spec (parse : String → Option (List String))
    (urls : List SitemapUrl) (maxC : Nat) (u : SitemapUrl) :
    u ∈ getAllUrlsFromNode (buildPathTree parse urls maxC).tree ↔
      ∃ m, InclReach (buildPathTree parse urls maxC).tree m ∧ u ∈ m.urls :=
  getAllUrls_iff_reach _ u (buildPathTree_root_isIncluded parse urls maxC)

/-! ### Sitemap resolution claims -/

/-- C4 counterexample: a parsed urlset with a single entry lacking `loc`
produces a result entry with an absent `loc` — `parseSitemapXml` performs
no validation, so it is NOT the case that every returned entry has a
present `loc`. -/
theorem parseSitemapXml_counterexample :
    ¬ ∀ e ∈ parseSitemapXml ⟨some (.one ⟨none, none, none, none⟩), none⟩,
        e.loc.isSome = true := by
  decide

/-- C4 (amended): entries lacking a `loc` are NOT excluded: the result has
one entry per document entry, with `loc` copied verbatim (urlset entries
first, then sitemapindex entries), absent or not. -/
theorem parseSitemapXml_locs_verbatim (p : ParsedSitemap) :
    (parseSitemapXml p).map (fun e => e.loc)
      = (urlsetEntries p).map (fun e => e.loc)
        ++ (indexEntries p).map (fun e => e.loc) := by
  rcases p with ⟨hu, hi⟩
  cases hu <;> cases hi <;>
    simp [parseSitemapXml, urlsetEntries, indexEntries, List.map_map, Function.comp_def]

/-- C5 counterexample: a non-empty entry list in which every `loc` ends in
`.xml` (so the claim's condition holds) but whose first entry's `loc` does
not contain `"sitemap"`, hence the handler does NOT classify it as a
sitemap index. -/
theorem sitemapIndexAttempted_counterexample :
    sitemapIndexAttempted [⟨"https://e.com/a.xml", none, none, none⟩] = false
    ∧ ([⟨"https://e.com/a.xml", none, none, none⟩] : List SitemapUrl).all
        (fun u => jsEndsWith u.loc ".xml" || jsIncludes u.loc "sitemap") = true := by
  constructor <;> decide

/-- C5 (amended): the handler classifies the result as a sitemap index
(and attempts nested resolution) exactly when the entry list is non-empty,
the FIRST entry's `loc` contains `"sitemap"`, and every entry's `loc` ends
in `".xml"` or contains `"sitemap"`. -/
theorem sitemapIndexAttempted_iff (urls : List SitemapUrl) :
    sitemapIndexAttempted urls = true ↔
      ∃ u0 rest, urls = u0 :: rest ∧ jsIncludes u0.loc "sitemap" = true ∧
        ∀ u ∈ urls, (jsEndsWith u.loc ".xml" || jsIncludes u.loc "sitemap") = true := by
  cases urls with
  | nil => simp [sitemapIndexAttempted]
  | cons u0 rest =>
    rw [sitemapIndexAttempted]
    simp only [Bool.and_eq_true, List.all_eq_true]
    constructor
    · rintro ⟨h1, h2⟩
      exact ⟨u0, rest, rfl, h1, h2⟩
    · rintro ⟨u0', rest', heq, h1, h2⟩
      obtain ⟨rfl, rfl⟩ := List.cons.injEq u0 rest u0' rest' ▸ heq
      exact ⟨h1, h2⟩

/-- C6: when the top-level document resolves to `outer` and the
sitemap-index guard passes, at most the first 10 nested sitemaps are
fetched, a failed nested fetch contributes the empty list without
aborting, the successful ones are concatenated in order, and the handler
falls back to `outer` when no nested entries were resolved. -/
theorem resolveSitemap_nested (net : String → Option (List SitemapUrl)) (url : String)
    (outer : List SitemapUrl) (h1 : net url = some outer)
    (h2 : sitemapIndexAttempted outer = true) :
    fetchNestedSitemaps net outer
      = ((outer.take 10).map (fun s => (net s.loc).getD [])).flatten
    ∧ resolveSitemap net url =
        some (if (fetchNestedSitemaps net outer).length > 0
          then fetchNestedSitemaps net outer else outer) := by
  constructor
  · rw [fetchNestedSitemaps]
    have main : ∀ l : List SitemapUrl,
        (l.filterMap (fun s => net s.loc)).flatten
          = (l.map (fun s => (net s.loc).getD [])).flatten := by
      intro l
      induction l with
      | nil => simp
      | cons a rest ih => cases ha : net a.loc <;> simp [ha, ih]
    exact main _
  · rw [resolveSitemap, h1]
    simp only [if_pos h2]
    by_cases hc : (fetchNestedSitemaps net outer).length > 0 <;> simp [hc]

/-- Witness for C6: a sitemap index with two nested references, one of
which fails to fetch; resolution returns the successfully parsed nested
entries, not an error. -/
theorem resolveSitemap_nested_witness :
    fetchNestedSitemaps demoNet
        [⟨"https://e.com/sitemap-a.xml", none, none, none⟩,
         ⟨"https://e.com/sitemap-b.xml", none, none, none⟩]
      = ((([⟨"https://e.com/sitemap-a.xml", none, none, none⟩,
            ⟨"https://e.com/sitemap-b.xml", none, none, none⟩] : List SitemapUrl).take 10).map
          (fun s => (demoNet s.loc).getD [])).flatten
    ∧ resolveSitemap demoNet "https://e.com/sitemap.xml" =
        some (if (fetchNestedSitemaps demoNet
            [⟨"https://e.com/sitemap-a.xml", none, none, none⟩,
             ⟨"https://e.com/sitemap-b.xml", none, none, none⟩]).length > 0
          then fetchNestedSitemaps demoNet
            [⟨"https://e.com/sitemap-a.xml", none, none, none⟩,
             ⟨"https://e.com/sitemap-b.xml", none, none, none⟩]
          else [⟨"https://e.com/sitemap-a.xml", none, none, none⟩,
                ⟨"https://e.com/sitemap-b.xml", none, none, none⟩]) :=
  resolveSitemap_nested demoNet "https://e.com/sitemap.xml" _ (by decide) (by decide)

/-! ### Batch metadata-fetch claims -/

/-- C8: for every requested URL whose page fetch fails (rejection — which
includes the abort raised by the timeout — or a non-2xx response such as
HTTP 404), the pipeline produces a record with `status: 'error'`, a
non-empty error string, and every other field at its default empty value.
Thrown `Error` values are assumed to carry non-empty messages (true of the
platform's network and abort errors); the non-2xx message is built by the
code itself and is never empty. -/
theorem processUrl_error_record (q : String → String → ExtractedFields) (url : String)
    (r : FetchResponse) (hfail : fetchFailed r)
    (hmsg : ∀ e, r = FetchResponse.netFailure e → e.isErrorInstance = true → e.message ≠ "") :
    ∃ m, m ≠ "" ∧ processUrl q r url =
      { url := url, title := "", description := "", canonical := "", ogTitle := "",
        ogDescription := "", ogImage := "", ogUrl := "", ogType := "", ogSiteName := "",
        twitterCard := "", twitterTitle := "", twitterDescription := "", twitterImage := "",
        twitterSite := "", favicon := "", allMetaTags := [], status := .error,
        error := some m } := by
  cases r with
  | response ok status statusText body =>
    have hok : ok = false := hfail
    subst hok
    refine ⟨"HTTP " ++ toString status ++ ": " ++ statusText, ?_, ?_⟩
    · intro hcontra
      have hlen := congrArg String.length hcontra
      rw [String.length_append, String.length_append, String.length_append] at hlen
      have h1 : ("HTTP ").length = 5 := rfl
      have h2 : (": ").length = 2 := rfl
      have h3 : ("").length = 0 := rfl
      omega
    · simp [processUrl, fetchPageContent]
  | netFailure e =>
    cases he : e.isErrorInstance with
    | true =>
      refine ⟨e.message, hmsg e rfl he, ?_⟩
      simp [processUrl, fetchPageContent, he]
    | false =>
      refine ⟨"Unknown error", by decide, ?_⟩
      simp [processUrl, fetchPageContent, he]

/-- Witness for C8: an HTTP 404 response yields the error record. -/
theorem processUrl_error_record_witness :
    ∃ m, m ≠ "" ∧
      processUrl (fun _ _ => ⟨"", "", "", "", "", "", "", "", "", "", "", "", "", "", "", []⟩)
        (FetchResponse.response false 404 "Not Found" "") "https://e.com/missing" =
      { url := "https://e.com/missing", title := "", description := "", canonical := "",
        ogTitle := "", ogDescription := "", ogImage := "", ogUrl := "", ogType := "",
        ogSiteName := "", twitterCard := "", twitterTitle := "", twitterDescription := "",
        twitterImage := "", twitterSite := "", favicon := "", allMetaTags := [],
        status := .error, error := some m } :=
  processUrl_error_record _ "https://e.com/missing"
    (FetchResponse.response false 404 "Not Found" "") rfl
    (fun e h => FetchResponse.noConfusion h)

theorem processInBatches_eq_map (process : String → PageMetaData) :
    ∀ urls : List String, processInBatches process urls = urls.map process := by
  have main : ∀ (n : Nat) (urls : List String), urls.length ≤ n →
      processInBatches process urls = urls.map process := by
    intro n
    induction n with
    | zero =>
      intro urls h
      have hnil : urls = [] := List.eq_nil_of_length_eq_zero (Nat.le_zero.mp h)
      subst hnil
      rw [processInBatches]
      simp
    | succ n ih =>
      intro urls h
      rw [processInBatches]
      by_cases he : urls.isEmpty
      · rw [if_pos he, List.isEmpty_iff.mp he]
        simp
      · rw [if_neg he]
        have hne : urls ≠ [] := by simpa [List.isEmpty_iff] using he
        have hpos : 0 < urls.length := List.length_pos.mpr hne
        rw [ih (urls.drop 5) (by simp; omega)]
        rw [← List.map_append, List.take_append_drop]
  exact fun urls => main urls.length urls (Nat.le_refl _)

/-- C10: for every call of the batch metadata-fetch endpoint with a
non-empty URL array, the successful response preserves per-URL input order
exactly: the result URLs are the first 50 requested URLs in order,
`results.length = processedCount = min(input length, 50)`, and
`errorCount` is the number of results whose status is `error`. -/
theorem fetchMetaPOST_spec (q : String → String → ExtractedFields)
    (net : String → FetchResponse) (urls : List String) (h : urls ≠ []) :
    ∃ resp, fetchMetaPOST (fun u => processUrl q (net u) u) urls = some resp ∧
      resp.results.map (fun p => p.url) = urls.take 50 ∧
      resp.results.length = min urls.length 50 ∧
      resp.processedCount = min urls.length 50 ∧
      resp.errorCount
        = (resp.results.filter (fun p => p.status == PageStatus.error)).length := by
  have he : urls.isEmpty = false := by simpa [List.isEmpty_iff] using h
  have hurl : ∀ u, (processUrl q (net u) u).url = u := by
    intro u
    cases hfc : fetchPageContent (net u) <;> simp [processUrl, hfc, extractMetaTags]
  simp only [fetchMetaPOST, he, Bool.false_eq_true, if_false]
  refine ⟨_, rfl, ?_, ?_, ?_, rfl⟩
  · rw [processInBatches_eq_map, List.map_map]
    have : ∀ u ∈ urls.take 50,
        ((fun p => p.url) ∘ fun u => processUrl q (net u) u) u = id u := by
      intro u _
      simp [Function.comp_def, hurl u]
    rw [List.map_congr_left this, List.map_id]
  · rw [processInBatches_eq_map]
    simp [Nat.min_comm]
  · rw [processInBatches_eq_map]
    simp [Nat.min_comm]

/-- Witness for C10 at a concrete one-element request. -/
theorem fetchMetaPOST_spec_witness :
    ∃ resp, fetchMetaPOST (fun u =>
        processUrl (fun _ _ => ⟨"", "", "", "", "", "", "", "", "", "", "", "", "", "", "", []⟩)
          ((fun _ => FetchResponse.response false 404 "Not Found" "") u) u)
        ["https://e.com/x"] = some resp ∧
      resp.results.map (fun p => p.url) = (["https://e.com/x"] : List String).take 50 ∧
      resp.results.length = min (["https://e.com/x"] : List String).length 50 ∧
      resp.processedCount = min (["https://e.com/x"] : List String).length 50 ∧
      resp.errorCount
        = (resp.results.filter (fun p => p.status == PageStatus.error)).length :=
  fetchMetaPOST_spec _ _ ["https://e.com/x"] (by decide)

/-! ### Selection toggle claim -/

theorem toggle_foldl_mem (locs : List String) :
    ∀ (sel : List String) (x : String),
      x ∈ locs.foldl (fun s loc => if s.contains loc then s else s ++ [loc]) sel ↔
        x ∈ sel ∨ x ∈ locs := by
  induction locs with
  | nil => simp
  | cons a rest ih =>
    intro sel x
    simp only [List.foldl_cons]
    by_cases ha : sel.contains a
    · rw [if_pos ha, ih]
      have hmem : a ∈ sel := List.elem_iff.mp ha
      constructor
      · rintro (h | h)
        · exact Or.inl h
        · exact Or.inr (List.mem_cons_of_mem _ h)
      · rintro (h | h)
        · exact Or.inl h
        · rcases List.mem_cons.mp h with rfl | h
          · exact Or.inl hmem
          · exact Or.inr h
    · rw [if_neg ha, ih]
      simp [List.mem_append, or_assoc]

/-- C9: for every batch of URLs passed to the selection toggle and every
current selection set, if every URL in the batch is currently selected
then exactly those URLs are removed from the selection, otherwise all of
them are added and none is removed. -/
theorem handleToggleSelect_spec (sel : List String) (batch : List SitemapUrl) :
    ((∀ l ∈ batch.map (fun u => u.loc), l ∈ sel) →
      ∀ l, l ∈ handleToggleSelect sel batch ↔
        (l ∈ sel ∧ l ∉ batch.map (fun u => u.loc)))
    ∧ ((∃ l ∈ batch.map (fun u => u.loc), l ∉ sel) →
      ∀ l, l ∈ handleToggleSelect sel batch ↔
        (l ∈ sel ∨ l ∈ batch.map (fun u => u.loc))) := by
  constructor
  · intro hall l
    have hcond : (batch.map (fun u => u.loc)).all (fun loc => sel.contains loc) = true := by
      rw [List.all_eq_true]
      intro x hx
      exact List.elem_iff.mpr (hall x hx)
    simp only [handleToggleSelect]
    rw [if_pos hcond]
    simp [List.mem_filter, List.elem_iff]
  · intro hex l
    have hcond : (batch.map (fun u => u.loc)).all (fun loc => sel.contains loc) = false := by
      obtain ⟨x, hx, hxs⟩ := hex
      cases hc : (batch.map (fun u => u.loc)).all (fun loc => sel.contains loc) with
      | true =>
        exact absurd (List.elem_iff.mp (List.all_eq_true.mp hc x hx)) hxs
      | false => rfl
    simp only [handleToggleSelect]
    rw [if_neg (by rw [hcond]; simp)]
    exact toggle_foldl_mem _ sel l

/-- Witness for C9: with 2 of 3 URLs selected, toggling the group selects
all 3 and deselects none. -/
theorem handleToggleSelect_spec_witness :
    "https://e.com/c" ∈ handleToggleSelect ["https://e.com/a", "https://e.com/b"]
        [⟨"https://e.com/a", none, none, none⟩, ⟨"https://e.com/b", none, none, none⟩,
         ⟨"https://e.com/c", none, none, none⟩]
    ∧ "https://e.com/a" ∈ handleToggleSelect ["https://e.com/a", "https://e.com/b"]
        [⟨"https://e.com/a", none, none, none⟩, ⟨"https://e.com/b", none, none, none⟩,
         ⟨"https://e.com/c", none, none, none⟩] := by
  have h := (handleToggleSelect_spec ["https://e.com/a", "https://e.com/b"]
    [⟨"https://e.com/a", none, none, none⟩, ⟨"https://e.com/b", none, none, none⟩,
     ⟨"https://e.com/c", none, none, none⟩]).2 (by decide)
  exact ⟨(h _).mpr (Or.inr (by decide)), (h _).mpr (Or.inl (by decide))⟩
